import Mathlib

/-!
Formal model of the india-law-mcp ingestion pipeline.

Shallow embedding of the TypeScript sources:
  * scripts/lib/fetcher.ts  — rate-limited, retrying HTTP transport
  * scripts/lib/parser.ts   — listing/act/section parsing helpers
  * scripts/ingest.ts       — discovery, per-act processing, seed cache

HTTP itself, the file system and `JSON.parse` are modelled as explicit
parameters (stub transports, cache states, payload parsers); everything
else is translated function by function from the source.
-/

/- ────────────────────────── Transport (fetcher.ts) ────────────────────────── -/

/-- Response shape returned by the transport (fetcher.ts, `FetchResult`).
JS numbers carrying HTTP statuses are modelled as `Int`. -/
structure FetchResult where
  status : Int
  body : String
  contentType : String
deriving DecidableEq

/-- Retry predicate from fetcher.ts line 45: `status === 429 || status >= 500`. -/
def isRetryable (s : Int) : Bool :=
  s == 429 || decide (500 ≤ s)

/-- Backoff slept after a retryable attempt `attempt`, in milliseconds:
`Math.pow(2, attempt + 1) * 1000` (fetcher.ts line 47). -/
def backoffMs (attempt : Nat) : Nat :=
  2 ^ (attempt + 1) * 1000

/-- Observable outcome of the retry loop of `fetchWithRateLimit`: the response
finally returned, how many requests were issued, and the backoff waits (ms)
slept between consecutive attempts (none before the first attempt). -/
structure LoopResult where
  result : FetchResult
  requests : Nat
  waits : List Nat
deriving DecidableEq

/-- The retry loop of `fetchWithRateLimit` (fetcher.ts lines 37-60).
`t a` is the response the network delivers to attempt number `a` (a stub
transport). `remaining` counts the attempts the `for` loop may still run,
i.e. `maxRetries - attempt + 1`; the loop guard `attempt <= maxRetries`
becomes `remaining > 0` and the inner `attempt < maxRetries` becomes
`remaining > 1`. `none` models falling out of the loop into the `throw`. -/
def fetchLoopGo (t : Nat → FetchResult) (attempt : Nat) : Nat → Option LoopResult
  | 0 => none
  | k + 1 =>
    let response := t attempt
    if isRetryable response.status = true ∧ 0 < k then
      match fetchLoopGo t (attempt + 1) k with
      | some res => some ⟨res.result, res.requests, backoffMs attempt :: res.waits⟩
      | none => none
    else
      some ⟨response, attempt + 1, []⟩

/-- `fetchWithRateLimit` (fetcher.ts lines 34-63), with the network abstracted
to the stub `t`. Returns `none` exactly when the code would reach the
`throw new Error(...)` after the loop. -/
def fetchWithRateLimit (t : Nat → FetchResult) (maxRetries : Int) : Option LoopResult :=
  fetchLoopGo t 0 (maxRetries + 1).toNat

/- ───────────────────── Discovery deduplication (ingest.ts) ───────────────────── -/

/-- One listing-page entry (parser.ts, `ActIndexEntry`). `year` and
`actNumber` come from 4-digit-regex / `parseInt(...) || 0` extraction, so
they are naturals. -/
structure ActIndexEntry where
  title : String
  year : Nat
  actNumber : Nat
  url : String
  updated : String
deriving DecidableEq

/-- Deduplication key built in `discoverActs` (ingest.ts line 322):
the template string `year-actNumber`. -/
def entryKey (e : ActIndexEntry) : String :=
  toString e.year ++ "-" ++ toString e.actNumber

/-- The deduplication loop of `discoverActs` (ingest.ts lines 318-327):
walk the accumulated entries in crawl order, keep an entry iff its key has
not been seen, recording seen keys. `seen` models the `Set<string>`. -/
def dedupEntries (seen : List String) : List ActIndexEntry → List ActIndexEntry
  | [] => []
  | e :: rest =>
    if entryKey e ∈ seen then dedupEntries seen rest
    else e :: dedupEntries (entryKey e :: seen) rest

/- ──────────────────── Timed rate-limit model (fetcher.ts) ──────────────────── -/

/-- `MIN_DELAY_MS` (fetcher.ts line 11). -/
def MIN_DELAY_MS : Int := 500

/-- Wait performed by `rateLimit` (fetcher.ts lines 15-22) given the stored
`lastRequestTime` and the current clock, in ms. -/
def rateLimitWait (last now : Int) : Int :=
  if now - last < MIN_DELAY_MS then MIN_DELAY_MS - (now - last) else 0

/-- Timed version of the retry loop: returns the start times of the requests
it issues and the time it returns. `dur a` is how long attempt `a`'s HTTP
round-trip takes (ms); sleeps take exactly their requested duration. -/
def runAttempts (t : Nat → FetchResult) (dur : Nat → Nat) (attempt : Nat) (now : Int) :
    Nat → List Int × Int
  | 0 => ([], now)
  | k + 1 =>
    let response := t attempt
    let afterFetch := now + (dur attempt : Int)
    if isRetryable response.status = true ∧ 0 < k then
      let p := runAttempts t dur (attempt + 1) (afterFetch + (backoffMs attempt : Int)) k
      (now :: p.1, p.2)
    else
      (now :: [], afterFetch)

/-- One timed `fetchWithRateLimit` call: the `rateLimit()` wait (fetcher.ts
line 35) runs first and records the new `lastRequestTime` (= the start of
attempt 0); retry attempts do not touch it. Returns
(new lastRequestTime, request start times, return time). -/
def runCall (t : Nat → FetchResult) (dur : Nat → Nat) (maxRetries : Int) (last now : Int) :
    Int × List Int × Int :=
  let t0 := now + rateLimitWait last now
  let p := runAttempts t dur 0 t0 (maxRetries + 1).toNat
  (t0, p.1, p.2)

/-- One logical fetch issued through the shared transport: its stub responses,
its per-attempt durations, and how long the caller works before the next call. -/
structure CallInput where
  t : Nat → FetchResult
  dur : Nat → Nat
  gapAfter : Nat

/-- A sequence of calls through the shared transport, threading the single
`lastRequestTime` exactly as the module does. Produces, per call, the
recorded `lastRequestTime` (= first attempt start) and all request starts.
`maxRetries` is the default 3 used by every call site in the repository. -/
def runCalls (last now : Int) : List CallInput → List (Int × List Int)
  | [] => []
  | c :: rest =>
    let r := runCall c.t c.dur 3 last now
    (r.1, r.2.1) :: runCalls r.1 (r.2.2 + (c.gapAfter : Int)) rest

/-- All request start times of a run, in order. -/
def allStarts (runs : List (Int × List Int)) : List Int :=
  (runs.map Prod.snd).flatten

/-- `spacedBy d l` holds iff consecutive elements of `l` are at least `d` apart. -/
def spacedBy (d : Int) : List Int → Bool
  | [] => true
  | [_] => true
  | a :: b :: r => decide (a + d ≤ b) && spacedBy d (b :: r)

/- ─────────────────── Text cleaning (parser.ts, cleanText) ─────────────────── -/

/-- The whitespace class used by the JS regexes and `trim()` (common members;
the rarer Unicode space code points never occur in the harvested markup). -/
def isJsSpace (c : Char) : Bool :=
  c == ' ' || c == '\t' || c == '\n' || c == '\r' ||
  c == '\x0b' || c == '\x0c' || c == ' '

/-- One left-to-right rewriting pass, the semantics of a global
`String.replace` with one of `cleanText`'s regexes: at each position try the
pattern; on a match emit its replacement and continue after the match,
otherwise keep the character. Each matcher below consumes at least one
character, so fuel `l.length` (supplied by `runPass`) never runs out. -/
def rewritePass (step : List Char → Option (List Char × List Char)) :
    Nat → List Char → List Char
  | _, [] => []
  | 0, l => l
  | fuel + 1, c :: rest =>
    match step (c :: rest) with
    | some (out, remaining) => out ++ rewritePass step fuel remaining
    | none => c :: rewritePass step fuel rest

/-- Run a rewriting pass over a whole character list. -/
def runPass (step : List Char → Option (List Char × List Char)) (l : List Char) : List Char :=
  rewritePass step l.length l

/-- Matcher for the tail of `<br\s*\/?>` after the leading `<` (parser.ts
line 245, case-insensitive): `br`, optional whitespace, optional `/`, `>`. -/
def matchBrEnd (l : List Char) : Option (List Char) :=
  match l with
  | b :: r :: t =>
    if (b == 'b' || b == 'B') && (r == 'r' || r == 'R') then
      match t.dropWhile isJsSpace with
      | '/' :: '>' :: u => some u
      | '>' :: u => some u
      | _ => none
    else none
  | _ => none

/-- Step for `.replace(/<br\s*\/?>/gi, '\n')`. -/
def stepBr (l : List Char) : Option (List Char × List Char) :=
  match l with
  | '<' :: rest => (matchBrEnd rest).map (fun u => (['\n'], u))
  | _ => none

/-- Step for `.replace(/<\/p>/gi, '\n')` (parser.ts line 246). -/
def stepPClose (l : List Char) : Option (List Char × List Char) :=
  match l with
  | '<' :: '/' :: p :: '>' :: u => if p == 'p' || p == 'P' then some (['\n'], u) else none
  | _ => none

/-- Scan to the first `>` and return what follows it. -/
def scanGt : List Char → Option (List Char)
  | [] => none
  | '>' :: u => some u
  | _ :: u => scanGt u

/-- Step for `.replace(/<[^>]+>/g, '')` (parser.ts line 247): a `<`, at least
one non-`>` character, then the first `>`. -/
def stepTag (l : List Char) : Option (List Char × List Char) :=
  match l with
  | '<' :: c :: rest => if c == '>' then none else (scanGt rest).map (fun u => ([], u))
  | _ => none

/-- Step for one literal entity replacement such as
`.replace(/&nbsp;/g, ' ')` (parser.ts lines 248-253). -/
def stepEntity (pat : List Char) (rep : Char) (l : List Char) : Option (List Char × List Char) :=
  if pat.isPrefixOf l then some ([rep], l.drop pat.length) else none

/-- Step for `.replace(/\s+/g, ' ')` (parser.ts line 254): a maximal
whitespace run becomes a single space. -/
def stepCollapse (l : List Char) : Option (List Char × List Char) :=
  match l with
  | c :: rest => if isJsSpace c then some ([' '], rest.dropWhile isJsSpace) else none
  | [] => none

/-- JS `String.prototype.trim()`. -/
def trimJs (l : List Char) : List Char :=
  ((l.dropWhile isJsSpace).reverse.dropWhile isJsSpace).reverse

/-- `cleanText` (parser.ts lines 243-256): the regex pipeline stripping HTML,
unescaping a fixed entity set, collapsing whitespace and trimming. -/
def cleanText (s : String) : String :=
  let l1 := runPass stepBr s.toList
  let l2 := runPass stepPClose l1
  let l3 := runPass stepTag l2
  let l4 := runPass (stepEntity "&nbsp;".toList ' ') l3
  let l5 := runPass (stepEntity "&amp;".toList '&') l4
  let l6 := runPass (stepEntity "&lt;".toList '<') l5
  let l7 := runPass (stepEntity "&gt;".toList '>') l6
  let l8 := runPass (stepEntity "&quot;".toList '"') l7
  let l9 := runPass (stepEntity "&#39;".toList (Char.ofNat 39)) l8
  let l10 := runPass stepCollapse l9
  String.mk (trimJs l10)

/- ───────────────── Section content (parser.ts / ingest.ts) ───────────────── -/

/-- The JSON object shape replied by the `/SectionPageContent` endpoint:
optional `content` and `footnote` string fields (absent models `undefined`,
so `?? ''` applies). -/
structure SectionPayload where
  content : Option String
  footnote : Option String
deriving DecidableEq

/-- `parseSectionContentJson` (parser.ts lines 261-271). `JSON.parse` is
abstracted as the parameter `jsonParse`; `none` models a parse exception,
caught and turned into two empty strings. Returns (content, footnote),
both cleaned. -/
def parseSectionContentJson (jsonParse : String → Option SectionPayload) (json : String) :
    String × String :=
  match jsonParse json with
  | some d => (cleanText (d.content.getD ""), cleanText (d.footnote.getD ""))
  | none => ("", "")

/-- Content assembly in `fetchAndParseActs` (ingest.ts line 430):
`footnote ? content + "\n\n[Footnote] " + footnote : content` — only the
footnote's truthiness is tested. -/
def assembleContent (content footnote : String) : String :=
  if footnote ≠ "" then content ++ "\n\n[Footnote] " ++ footnote else content

/-- Assembly following the spec's words instead of the source, for
comparison: the concatenation happens only when BOTH cleaned strings are
non-empty, "otherwise just content". -/
def assembleContentSpec (content footnote : String) : String :=
  if content ≠ "" ∧ footnote ≠ "" then content ++ "\n\n[Footnote] " ++ footnote else content

/- ─────────────── Provisions and records (parser.ts / ingest.ts) ─────────────── -/

/-- `buildProvisionRef` (parser.ts lines 276-279): strip a leading
`section` label (case-insensitive, with following whitespace), strip a
trailing `.` with trailing whitespace, trim, and prefix `s`. -/
def buildProvisionRef (sectionNum : String) : String :=
  let l0 := sectionNum.toList
  let l1 := if (l0.take 7).map Char.toLower = "section".toList
            then (l0.drop 7).dropWhile isJsSpace else l0
  let l2 := match l1.reverse.dropWhile isJsSpace with
            | '.' :: u => u.reverse
            | _ => l1
  String.mk ('s' :: trimJs l2)

/-- A section-level unit of an act (parser.ts, `ParsedProvision`). The field
named `section` in the source is called `sectionNumber` here (`section` is a
Lean keyword). -/
structure ParsedProvision where
  provision_ref : String
  sectionNumber : String
  title : String
  content : String
deriving DecidableEq

/-- `buildProvision` (parser.ts lines 305-316). -/
def buildProvision (sectionNo : String) (title : String) (content : String) : ParsedProvision :=
  ⟨buildProvisionRef sectionNo, sectionNo, title, content⟩

/-- Words excluded from the initialism in `buildShortName` (parser.ts line 291). -/
def EXCLUDED_WORDS : List String := ["The", "And", "For", "Act", "Of", "In", "To", "With"]

/-- Single-space split used to model `split(/\s+/)`: splitting on single
spaces after collapsing whitespace runs equals splitting on runs. -/
def splitChar : List Char → List Char → List (List Char)
  | [], acc => [acc.reverse]
  | c :: rest, acc =>
    if c == ' ' then acc.reverse :: splitChar rest [] else splitChar rest (c :: acc)

/-- JS `title.split(/\s+/)`, including the empty edge tokens JS produces. -/
def splitWs (l : List Char) : List (List Char) :=
  splitChar (runPass stepCollapse l) []

/-- The filter of parser.ts lines 288-292: length over 2, first character
its own uppercase (ASCII, as in the harvested titles), not an excluded word. -/
def isSignificantWord (w : List Char) : Bool :=
  decide (2 < w.length) &&
  (match w with | c :: _ => c == c.toUpper | [] => true) &&
  !(EXCLUDED_WORDS.map String.toList).contains w

/-- `buildShortName` (parser.ts lines 284-300). -/
def buildShortName (title : String) (year : Nat) : String :=
  let words := splitWs (title.toList.filter (fun c => !(c == '(' || c == ')' || c == ',')))
  if words.length ≤ 3 then title ++ " " ++ toString year
  else
    let significant := words.filter isSignificantWord
    if 2 ≤ significant.length then
      String.mk ((significant.take 5).map (fun w => w.headD ' ')) ++ " " ++ toString year
    else
      String.mk (trimJs (title.toList.take 30)) ++ " " ++ toString year

/- ───────────────── Per-act processing (ingest.ts, fetchAndParseActs) ───────────────── -/

/-- A section reference extracted from an act page (parser.ts, `SectionRef`). -/
structure SectionRef where
  actId : String
  sectionId : String
  sectionNo : String
  title : String
deriving DecidableEq

/-- The seed record (parser.ts, `ParsedAct`). `type` is always `"statute"`
and `status` always `"in_force"` in the pipeline; `language` is optional
(absent on minimal seeds, `"en"` on full records). -/
structure ParsedAct where
  id : String
  type : String
  title : String
  short_name : String
  status : String
  issued_date : String
  url : String
  provisions : List ParsedProvision
  language : Option String
deriving DecidableEq

/-- Act-page metadata (parser.ts, `extractActMetadata` result shape). -/
structure ActMetadata where
  actId : String
  shortTitle : String
  longTitle : String
  enactmentDate : String
  year : Int
  actNumber : Int
  ministry : String

/-- Outcome of one `await fetch...` call: a response, or a thrown exception. -/
inductive FetchOutcome where
  | ok (result : FetchResult)
  | err
deriving DecidableEq

/-- The body of the per-section loop (ingest.ts lines 424-445): a 200
response with a non-empty body is parsed and assembled; any other response,
and any exception, still yields a provision — with empty content. -/
def processSection (jsonParse : String → Option SectionPayload)
    (outcome : FetchOutcome) (s : SectionRef) : ParsedProvision :=
  match outcome with
  | .err => buildProvision s.sectionNo s.title ""
  | .ok contentResult =>
    if contentResult.status = 200 ∧ 0 < contentResult.body.length then
      let parsed := parseSectionContentJson jsonParse contentResult.body
      buildProvision s.sectionNo s.title (assembleContent parsed.1 parsed.2)
    else
      buildProvision s.sectionNo s.title ""

/-- Phase 3 of `fetchAndParseActs`: one provision pushed per extracted
section reference, in extraction order. `fetchSection` stubs
`fetchSectionContent` (including thrown exceptions). -/
def processSections (jsonParse : String → Option SectionPayload)
    (fetchSection : SectionRef → FetchOutcome) (sections : List SectionRef) :
    List ParsedProvision :=
  sections.map (fun s => processSection jsonParse (fetchSection s) s)

/-- JS `a || b` on strings: the empty string is falsy. -/
def jsOrStr (a b : String) : String := if a ≠ "" then a else b

/-- The deterministic record id `act-{actNumber}-{year}` (ingest.ts line 383). -/
def actRecordId (act : ActIndexEntry) : String :=
  "act-" ++ toString act.actNumber ++ "-" ++ toString act.year

/-- Minimal placeholder written when the act page fetch is non-200
(ingest.ts lines 382-392). -/
def minimalSeedNoPage (act : ActIndexEntry) : ParsedAct :=
  ⟨actRecordId act, "statute", act.title, buildShortName act.title act.year,
   "in_force", toString act.year ++ "-01-01", act.url, [], none⟩

/-- Minimal placeholder written when zero sections are extracted
(ingest.ts lines 405-415). -/
def minimalSeedNoSections (act : ActIndexEntry) (metadata : ActMetadata) : ParsedAct :=
  ⟨actRecordId act, "statute", jsOrStr metadata.shortTitle act.title,
   buildShortName (jsOrStr metadata.shortTitle act.title) act.year,
   "in_force", jsOrStr metadata.enactmentDate (toString act.year ++ "-01-01"),
   act.url, [], none⟩

/-- The full record assembled after Phase 3 (ingest.ts lines 447-457). -/
def fullParsedAct (act : ActIndexEntry) (metadata : ActMetadata)
    (provisions : List ParsedProvision) : ParsedAct :=
  ⟨actRecordId act, "statute", jsOrStr metadata.shortTitle act.title,
   buildShortName (jsOrStr metadata.shortTitle act.title) act.year,
   "in_force", jsOrStr metadata.enactmentDate (toString act.year ++ "-01-01"),
   act.url, provisions, some "en"⟩

/-- State of an act's seed file before processing: absent, present but
unparseable JSON, or present and parsed. -/
inductive CacheState where
  | absent
  | corrupt
  | parsed (existing : ParsedAct)

/-- What one iteration of the per-act loop does to the seed file:
skip (cache hit, nothing written), write a record, or catch an exception
(nothing written, `failed` counted). -/
inductive ActStep where
  | skipped
  | wrote (record : ParsedAct)
  | errored
deriving DecidableEq

/-- The completeness test of ingest.ts line 362:
`provisions.length > 0 && provisions.some(p => p.content.length > 0)`. -/
def isCompleteRecord (a : ParsedAct) : Bool :=
  decide (0 < a.provisions.length) && a.provisions.any (fun p => 0 < p.content.length)

/-- The fetch-and-write part of one per-act iteration (ingest.ts lines
376-468), after the cache check. `extractMeta`/`extractRefs` stand for
`extractActMetadata`/`extractSectionRefs` applied to the fetched body. -/
def processActFetch (jsonParse : String → Option SectionPayload)
    (fetchAct : FetchOutcome) (extractMeta : String → ActMetadata)
    (extractRefs : String → List SectionRef) (fetchSection : SectionRef → FetchOutcome)
    (act : ActIndexEntry) : ActStep :=
  match fetchAct with
  | .err => .errored
  | .ok actResult =>
    if actResult.status ≠ 200 then
      .wrote (minimalSeedNoPage act)
    else
      let metadata := extractMeta actResult.body
      let sections := extractRefs actResult.body
      if sections = [] then
        .wrote (minimalSeedNoSections act metadata)
      else
        .wrote (fullParsedAct act metadata (processSections jsonParse fetchSection sections))

/-- One full per-act iteration (ingest.ts lines 355-474): the incremental
cache check of lines 359-374 first — a parsed record that is complete is
skipped without rewriting, a corrupt record falls through to re-fetch —
then the fetch-and-write part. -/
def processAct (jsonParse : String → Option SectionPayload) (cache : CacheState)
    (fetchAct : FetchOutcome) (extractMeta : String → ActMetadata)
    (extractRefs : String → List SectionRef) (fetchSection : SectionRef → FetchOutcome)
    (act : ActIndexEntry) : ActStep :=
  match cache with
  | .parsed existing =>
    if isCompleteRecord existing then .skipped
    else processActFetch jsonParse fetchAct extractMeta extractRefs fetchSection act
  | _ => processActFetch jsonParse fetchAct extractMeta extractRefs fetchSection act

/- ───────────────────── The --limit argument (ingest.ts) ───────────────────── -/

/-- A JS number as produced by `parseInt`: an integer or `NaN`. -/
inductive JsNumber where
  | nan
  | int (n : Int)
deriving DecidableEq

/-- Value of a decimal digit run. -/
def digitsVal (ds : List Char) : Nat :=
  ds.foldl (fun a c => a * 10 + (c.toNat - '0'.toNat)) 0

/-- `parseInt(s, 10)` (ingest.ts line 265): skip whitespace, optional sign,
then a maximal digit run; no digits at all gives `NaN`. -/
def parseIntJs (s : String) : JsNumber :=
  let l := s.toList.dropWhile isJsSpace
  let signedTail : Int × List Char :=
    match l with
    | '-' :: rest => (-1, rest)
    | '+' :: rest => (1, rest)
    | _ => (1, l)
  let ds := signedTail.2.takeWhile Char.isDigit
  if ds = [] then .nan else .int (signedTail.1 * digitsVal ds)

/-- The end index of `acts.slice(0, n)` for a JS number end argument:
negative counts from the end, and the index is clamped to the length. -/
def jsSliceEnd (len : Nat) (n : Int) : Nat :=
  if n < 0 then (n + len).toNat else min n.toNat len

/-- `const toProcess = limit ? acts.slice(0, limit) : acts` (ingest.ts line
344): `null`, `NaN` and `0` are all falsy, so only a truthy numeric limit
truncates. -/
def toProcess (acts : List ActIndexEntry) (limit : Option JsNumber) : List ActIndexEntry :=
  match limit with
  | some (.int n) => if n ≠ 0 then acts.take (jsSliceEnd acts.length n) else acts
  | _ => acts

/- ───────────────────────────── Concrete fixtures ───────────────────────────── -/

/-- Stub transport replying 429, 429, then 200. -/
def stubTwo429 : Nat → FetchResult :=
  fun n => if n < 2 then ⟨429, "", ""⟩ else ⟨200, "ok", "application/json"⟩

/-- Stub transport replying 429 to every attempt. -/
def stubAlways429 : Nat → FetchResult :=
  fun _ => ⟨429, "", ""⟩

/-- Stub transport replying 429 once, then 200. -/
def stubOne429 : Nat → FetchResult :=
  fun n => if n = 0 then ⟨429, "", ""⟩ else ⟨200, "ok", "text/html"⟩

/-- Stub transport always replying 200. -/
def stub200 : Nat → FetchResult :=
  fun _ => ⟨200, "ok", "text/html"⟩

/-- Two back-to-back logical fetches: one that suffers a 429 retry, then one
issued immediately afterwards by another component; every round-trip is
instantaneous. -/
def cexCalls : List CallInput :=
  [⟨stubOne429, fun _ => 0, 0⟩, ⟨stub200, fun _ => 0, 0⟩]

/-- The raw content-endpoint reply with empty content and footnote "B". -/
def emptyContentJson : String := "\x7b\"content\":\"\",\"footnote\":\"B\"\x7d"

/-- `JSON.parse` on `emptyContentJson`. -/
def jpEmptyContent : String → Option SectionPayload :=
  fun s => if s = emptyContentJson then some ⟨some "", some "B"⟩ else none

/-- The spec's first example reply. -/
def helloJson : String := "\x7b\"content\":\"<p>Hello</p>\",\"footnote\":\"\"\x7d"

/-- `JSON.parse` on `helloJson`. -/
def jpHello : String → Option SectionPayload :=
  fun s => if s = helloJson then some ⟨some "<p>Hello</p>", some ""⟩ else none

/-- The spec's second example reply. -/
def abJson : String := "\x7b\"content\":\"A\",\"footnote\":\"B\"\x7d"

/-- `JSON.parse` on `abJson`. -/
def jpAB : String → Option SectionPayload :=
  fun s => if s = abJson then some ⟨some "A", some "B"⟩ else none

/-- A concrete index entry. -/
def sampleAct : ActIndexEntry :=
  ⟨"The Fatal Accidents Act, 1855", 1855, 13, "https://www.indiacode.nic.in/handle/1", "2026-01-01"⟩

/-- Empty act-page metadata. -/
def sampleMeta : ActMetadata :=
  ⟨"", "", "", "", 0, 0, ""⟩

/-- A concrete section reference. -/
def sampleSection : SectionRef :=
  ⟨"AC1", "S1", "4", "Suits for compensation"⟩

/-- A parsed seed record that is complete: one provision with content. -/
def sampleCompleteAct : ParsedAct :=
  ⟨"act-13-1855", "statute", "The Fatal Accidents Act, 1855", "FAA 1855", "in_force",
   "1855-01-01", "https://www.indiacode.nic.in/handle/1",
   [⟨"s4", "4", "Suits for compensation", "Body text"⟩], some "en"⟩

/- ─────────────────────────────── Theorems: C1 ─────────────────────────────── -/

/-- Helper: the deduplicated list is a sublist of its input, so kept entries
stay in crawl order. -/
theorem dedupEntries_sublist (l : List ActIndexEntry) :
    ∀ seen, List.Sublist (dedupEntries seen l) l := by
  induction l with
  | nil => intro seen; simp [dedupEntries]
  | cons c rest ih =>
    intro seen
    by_cases hc : entryKey c ∈ seen
    · rw [show dedupEntries seen (c :: rest) = dedupEntries seen rest from by
        simp [dedupEntries, hc]]
      exact (ih seen).cons c
    · rw [show dedupEntries seen (c :: rest) = c :: dedupEntries (entryKey c :: seen) rest from by
        simp [dedupEntries, hc]]
      exact (ih (entryKey c :: seen)).cons₂ c

/-- Helper: an entry is kept iff its key is outside `seen` and it is the first
input entry bearing its key. -/
theorem dedupEntries_mem (l : List ActIndexEntry) :
    ∀ seen e, e ∈ dedupEntries seen l ↔
      (entryKey e ∉ seen ∧ l.find? (fun x => entryKey x == entryKey e) = some e) := by
  induction l with
  | nil => intro seen e; simp [dedupEntries]
  | cons c rest ih =>
    intro seen e
    by_cases hk : entryKey c = entryKey e
    · have hp : (entryKey c == entryKey e) = true := by simpa using hk
      simp only [List.find?, hp]
      by_cases hc : entryKey c ∈ seen
      · rw [show dedupEntries seen (c :: rest) = dedupEntries seen rest from by
          simp [dedupEntries, hc]]
        rw [ih]
        constructor
        · rintro ⟨hnot, -⟩
          exact absurd (hk ▸ hc) hnot
        · rintro ⟨hnot, -⟩
          exact absurd (hk ▸ hc) hnot
      · rw [show dedupEntries seen (c :: rest) = c :: dedupEntries (entryKey c :: seen) rest from by
          simp [dedupEntries, hc]]
        simp only [List.mem_cons]
        constructor
        · rintro (rfl | hmem)
          · exact ⟨hk ▸ hc, rfl⟩
          · have h2 := (ih _ e).1 hmem
            simp only [List.mem_cons, not_or] at h2
            exact absurd hk.symm h2.1.1
        · rintro ⟨-, hsome⟩
          exact Or.inl (Option.some.inj hsome).symm
    · have hp : (entryKey c == entryKey e) = false := by simpa using hk
      simp only [List.find?, hp]
      by_cases hc : entryKey c ∈ seen
      · rw [show dedupEntries seen (c :: rest) = dedupEntries seen rest from by
          simp [dedupEntries, hc]]
        exact ih seen e
      · rw [show dedupEntries seen (c :: rest) = c :: dedupEntries (entryKey c :: seen) rest from by
          simp [dedupEntries, hc]]
        simp only [List.mem_cons]
        rw [ih]
        simp only [List.mem_cons, not_or]
        constructor
        · rintro (rfl | ⟨⟨-, hnot⟩, hfind⟩)
          · exact absurd rfl hk
          · exact ⟨hnot, hfind⟩
        · rintro ⟨hnot, hfind⟩
          exact Or.inr ⟨⟨fun h => hk h.symm, hnot⟩, hfind⟩

/-- Helper: the deduplicated list has pairwise-distinct keys. -/
theorem dedupEntries_key_nodup (l : List ActIndexEntry) :
    ∀ seen, ((dedupEntries seen l).map entryKey).Nodup := by
  induction l with
  | nil => intro seen; simp [dedupEntries]
  | cons c rest ih =>
    intro seen
    by_cases hc : entryKey c ∈ seen
    · rw [show dedupEntries seen (c :: rest) = dedupEntries seen rest from by
        simp [dedupEntries, hc]]
      exact ih seen
    · rw [show dedupEntries seen (c :: rest) = c :: dedupEntries (entryKey c :: seen) rest from by
        simp [dedupEntries, hc]]
      simp only [List.map_cons, List.nodup_cons]
      refine ⟨?_, ih _⟩
      intro hmem
      obtain ⟨x, hx, hkx⟩ := List.mem_map.mp hmem
      have h2 := (dedupEntries_mem rest _ x).1 hx
      simp only [List.mem_cons, not_or] at h2
      exact h2.1.1 hkx

/-- C1: over any crawl-ordered sequence of listing entries, the dedup loop of
`discoverActs` keeps at most one entry per (year, actNumber), each kept entry
is the first input entry with its key, and kept entries appear in input
(crawl) order. -/
theorem c1_dedup_first_occurrence (l : List ActIndexEntry) :
    List.Sublist (dedupEntries [] l) l ∧
    ((dedupEntries [] l).map (fun e => (e.year, e.actNumber))).Nodup ∧
    ∀ e, e ∈ dedupEntries [] l ↔ l.find? (fun x => entryKey x == entryKey e) = some e := by
  refine ⟨dedupEntries_sublist l [], ?_, ?_⟩
  · have h := dedupEntries_key_nodup l []
    have heq : (dedupEntries [] l).map entryKey =
        ((dedupEntries [] l).map (fun e => (e.year, e.actNumber))).map
          (fun p => toString p.1 ++ "-" ++ toString p.2) := by
      rw [List.map_map]; rfl
    rw [heq] at h
    exact h.of_map
  · intro e
    rw [dedupEntries_mem]
    simp

/- ───────────────────────────── Theorems: C2, C3 ───────────────────────────── -/

/-- Helper: with at least one attempt allowed, the retry loop always returns
a response — the response of its last attempt. Starting at `attempt` with
`k` attempts allowed, it issues between `attempt + 1` and `attempt + k`
requests, sleeps `backoffMs` between consecutive attempts and never before
the first, and re-attempts only after retryable statuses. -/
theorem fetchLoopGo_spec (t : Nat → FetchResult) :
    ∀ (k attempt : Nat), 0 < k →
      ∃ res : LoopResult, fetchLoopGo t attempt k = some res ∧
        attempt < res.requests ∧ res.requests ≤ attempt + k ∧
        res.result = t (res.requests - 1) ∧
        res.waits.length = res.requests - 1 - attempt ∧
        (∀ i, i < res.waits.length → res.waits[i]? = some (backoffMs (attempt + i))) ∧
        (∀ j, attempt ≤ j → j < res.requests - 1 → isRetryable (t j).status = true) := by
  intro k
  induction k with
  | zero => intro attempt h; exact absurd h (by omega)
  | succ k ih =>
    intro attempt _
    by_cases hr : isRetryable (t attempt).status = true ∧ 0 < k
    · obtain ⟨res, hres, h1, h2, h3, h4, h5, h6⟩ := ih (attempt + 1) hr.2
      refine ⟨⟨res.result, res.requests, backoffMs attempt :: res.waits⟩,
        ?_, ?_, ?_, ?_, ?_, ?_, ?_⟩
      · simp [fetchLoopGo, hr.1, hr.2, hres]
      · dsimp only; omega
      · dsimp only; omega
      · exact h3
      · dsimp only; simp only [List.length_cons]; omega
      · intro i hi
        match i with
        | 0 => simp
        | i + 1 =>
          have hlen : i < res.waits.length := by
            dsimp only at hi; simp only [List.length_cons] at hi; omega
          have h := h5 i hlen
          dsimp only
          simp only [List.getElem?_cons_succ]
          rw [show attempt + (i + 1) = attempt + 1 + i from by omega]
          exact h
      · intro j hj1 hj2
        dsimp only at hj2
        rcases Nat.eq_or_lt_of_le hj1 with heq | hlt
        · rw [← heq]; exact hr.1
        · exact h6 j hlt (by omega)
    · refine ⟨⟨t attempt, attempt + 1, []⟩, ?_, ?_, ?_, ?_, ?_, ?_, ?_⟩
      · simp [fetchLoopGo, hr]
      · dsimp only; omega
      · dsimp only; omega
      · simp
      · simp
      · intro i hi; simp at hi
      · intro j hj1 hj2; dsimp only at hj2; omega

/-- C2: with the default budget `maxRetries = 3`, `fetchWithRateLimit` issues
at most 4 requests (3 retries), sleeps exactly `2^(attempt+1)` seconds
between consecutive attempts and never before the first, and retries only
429/5xx responses; on the stub replying 429, 429, 200, exactly 3 requests go
out, with waits of 2000 ms and then 4000 ms, and the 200 response returns. -/
theorem c2_retry_with_backoff :
    (∀ t : Nat → FetchResult,
      ∃ res : LoopResult, fetchWithRateLimit t 3 = some res ∧
        1 ≤ res.requests ∧ res.requests ≤ 4 ∧
        res.waits.length = res.requests - 1 ∧
        (∀ i, i < res.waits.length → res.waits[i]? = some (backoffMs i)) ∧
        (∀ j, j < res.requests - 1 → isRetryable (t j).status = true)) ∧
    fetchWithRateLimit stubTwo429 3 =
      some ⟨⟨200, "ok", "application/json"⟩, 3, [2000, 4000]⟩ := by
  constructor
  · intro t
    obtain ⟨res, hres, h1, h2, h3, h4, h5, h6⟩ := fetchLoopGo_spec t 4 0 (by omega)
    refine ⟨res, hres, h1, by omega, by simpa using h4, ?_, fun j hj => h6 j (Nat.zero_le j) hj⟩
    intro i hi
    simpa using h5 i hi
  · decide

/-- C3: for every retry budget, a response always comes back — the response
of the final attempt, retryable or not — as long as the attempt loop runs at
least once (budget ≥ 0); the post-loop throw is reached exactly when the
budget is negative, so the loop body never runs. -/
theorem c3_returns_last_or_throws (t : Nat → FetchResult) (maxRetries : Int) :
    (0 ≤ maxRetries →
      ∃ res : LoopResult, fetchWithRateLimit t maxRetries = some res ∧
        1 ≤ res.requests ∧ res.result = t (res.requests - 1)) ∧
    (maxRetries < 0 → fetchWithRateLimit t maxRetries = none) := by
  constructor
  · intro h
    have hk : 0 < (maxRetries + 1).toNat := by omega
    obtain ⟨res, hres, h1, h2, h3, h4, h5, h6⟩ :=
      fetchLoopGo_spec t ((maxRetries + 1).toNat) 0 hk
    exact ⟨res, hres, h1, h3⟩
  · intro h
    have hk : (maxRetries + 1).toNat = 0 := by omega
    simp [fetchWithRateLimit, hk, fetchLoopGo]

/-- Witness for C3: at a transport that always replies 429 — budget 3 returns
the still-failing last response; budget -1 reaches the throw. -/
theorem c3_witness :
    (∃ res : LoopResult, fetchWithRateLimit stubAlways429 3 = some res ∧
        1 ≤ res.requests ∧ res.result = stubAlways429 (res.requests - 1)) ∧
    fetchWithRateLimit stubAlways429 (-1) = none :=
  ⟨(c3_returns_last_or_throws stubAlways429 3).1 (by decide),
   (c3_returns_last_or_throws stubAlways429 (-1)).2 (by decide)⟩

/- ─────────────────────────── Theorems: C4, C5, C6 ─────────────────────────── -/

/-- C4: the per-section loop emits exactly one provision per extracted
section reference, in extraction order; a thrown fetch, a non-200 status or
an empty body still emits that reference's provision, with empty content —
no section reference is ever dropped. -/
theorem c4_no_section_dropped (jsonParse : String → Option SectionPayload)
    (fetchSection : SectionRef → FetchOutcome) (sections : List SectionRef)
    (i : Nat) (h : i < sections.length) :
    (processSections jsonParse fetchSection sections).length = sections.length ∧
    (processSections jsonParse fetchSection sections)[i]? =
      some (processSection jsonParse (fetchSection (sections.get ⟨i, h⟩))
        (sections.get ⟨i, h⟩)) ∧
    ((fetchSection (sections.get ⟨i, h⟩) = .err ∨
        ∃ r, fetchSection (sections.get ⟨i, h⟩) = .ok r ∧ (r.status ≠ 200 ∨ r.body = "")) →
      (processSections jsonParse fetchSection sections)[i]? =
        some (buildProvision (sections.get ⟨i, h⟩).sectionNo (sections.get ⟨i, h⟩).title "")) := by
  have hidx : (processSections jsonParse fetchSection sections)[i]? =
      some (processSection jsonParse (fetchSection (sections.get ⟨i, h⟩))
        (sections.get ⟨i, h⟩)) := by
    simp [processSections, List.getElem?_eq_getElem h]
  refine ⟨by simp [processSections], hidx, ?_⟩
  rintro (herr | ⟨r, hok, hbad⟩)
  · rw [hidx, herr]
    rfl
  · rw [hidx, hok]
    rcases hbad with hst | hb
    · simp [processSection, hst]
    · simp [processSection, hb]

/-- Witness for C4: a single section whose content fetch throws still yields
its (empty-content) provision. -/
theorem c4_witness :
    (processSections (fun _ => none) (fun _ => .err) [sampleSection]).length = 1 ∧
    (processSections (fun _ => none) (fun _ => .err) [sampleSection])[0]? =
      some (processSection (fun _ => none) .err sampleSection) ∧
    (processSections (fun _ => none) (fun _ => .err) [sampleSection])[0]? =
      some (buildProvision sampleSection.sectionNo sampleSection.title "") := by
  have h := c4_no_section_dropped (fun _ => none) (fun _ => .err) [sampleSection] 0
    (by decide)
  exact ⟨h.1, h.2.1, h.2.2 (Or.inl rfl)⟩

/-- C5: when the cache does not skip the act, a non-200 act-page response
yields the minimal placeholder record — empty provisions, deterministic id
`act-{actNumber}-{year}` — and so does a 200 page from which zero section
references are extracted. -/
theorem c5_minimal_placeholder (jsonParse : String → Option SectionPayload)
    (cache : CacheState) (fetchAct : FetchOutcome) (extractMeta : String → ActMetadata)
    (extractRefs : String → List SectionRef) (fetchSection : SectionRef → FetchOutcome)
    (act : ActIndexEntry) (r : FetchResult)
    (hcache : cache = .absent ∨ cache = .corrupt ∨
      ∃ a, cache = .parsed a ∧ isCompleteRecord a = false)
    (hfetch : fetchAct = .ok r) :
    (r.status ≠ 200 →
      processAct jsonParse cache fetchAct extractMeta extractRefs fetchSection act =
        .wrote (minimalSeedNoPage act) ∧
      (minimalSeedNoPage act).provisions = [] ∧
      (minimalSeedNoPage act).id =
        "act-" ++ toString act.actNumber ++ "-" ++ toString act.year) ∧
    (r.status = 200 → extractRefs r.body = [] →
      processAct jsonParse cache fetchAct extractMeta extractRefs fetchSection act =
        .wrote (minimalSeedNoSections act (extractMeta r.body)) ∧
      (minimalSeedNoSections act (extractMeta r.body)).provisions = [] ∧
      (minimalSeedNoSections act (extractMeta r.body)).id =
        "act-" ++ toString act.actNumber ++ "-" ++ toString act.year) := by
  have hred : processAct jsonParse cache fetchAct extractMeta extractRefs fetchSection act =
      processActFetch jsonParse fetchAct extractMeta extractRefs fetchSection act := by
    rcases hcache with rfl | rfl | ⟨a, rfl, ha⟩
    · rfl
    · rfl
    · simp [processAct, ha]
  subst hfetch
  constructor
  · intro hst
    refine ⟨?_, rfl, rfl⟩
    rw [hred]
    simp [processActFetch, hst]
  · intro hst hrefs
    refine ⟨?_, rfl, rfl⟩
    rw [hred]
    simp [processActFetch, hst, hrefs]

/-- Witness for C5: a 404 act page produces the placeholder for `sampleAct`. -/
theorem c5_witness :
    processAct (fun _ => none) .absent (.ok ⟨404, "", ""⟩) (fun _ => sampleMeta)
      (fun _ => []) (fun _ => .err) sampleAct = .wrote (minimalSeedNoPage sampleAct) ∧
    (minimalSeedNoPage sampleAct).provisions = [] ∧
    (minimalSeedNoPage sampleAct).id =
      "act-" ++ toString sampleAct.actNumber ++ "-" ++ toString sampleAct.year :=
  (c5_minimal_placeholder (fun _ => none) .absent (.ok ⟨404, "", ""⟩) (fun _ => sampleMeta)
    (fun _ => []) (fun _ => .err) sampleAct ⟨404, "", ""⟩ (Or.inl rfl) rfl).1 (by decide)

/-- C6: a parsed seed record with at least one provision carrying non-empty
content makes the act skip — nothing is rewritten; an unparseable (corrupt)
seed behaves exactly like an absent one, so the act is re-fetched. -/
theorem c6_cache_skip_and_corrupt_miss (jsonParse : String → Option SectionPayload)
    (fetchAct : FetchOutcome) (extractMeta : String → ActMetadata)
    (extractRefs : String → List SectionRef) (fetchSection : SectionRef → FetchOutcome)
    (act : ActIndexEntry) (a : ParsedAct)
    (hc : ∃ p ∈ a.provisions, 0 < p.content.length) :
    processAct jsonParse (.parsed a) fetchAct extractMeta extractRefs fetchSection act =
      .skipped ∧
    processAct jsonParse .corrupt fetchAct extractMeta extractRefs fetchSection act =
      processAct jsonParse .absent fetchAct extractMeta extractRefs fetchSection act := by
  obtain ⟨p, hp, hpc⟩ := hc
  have hcomplete : isCompleteRecord a = true := by
    simp only [isCompleteRecord, Bool.and_eq_true, decide_eq_true_eq, List.any_eq_true]
    exact ⟨List.length_pos.mpr (List.ne_nil_of_mem hp), p, hp, by simpa using hpc⟩
  exact ⟨by simp [processAct, hcomplete], rfl⟩

/-- Witness for C6 at a concrete complete record. -/
theorem c6_witness :
    processAct (fun _ => none) (.parsed sampleCompleteAct) (.ok ⟨200, "x", ""⟩)
      (fun _ => sampleMeta) (fun _ => []) (fun _ => .err) sampleAct = .skipped ∧
    processAct (fun _ => none) .corrupt (.ok ⟨200, "x", ""⟩) (fun _ => sampleMeta)
      (fun _ => []) (fun _ => .err) sampleAct =
    processAct (fun _ => none) .absent (.ok ⟨200, "x", ""⟩) (fun _ => sampleMeta)
      (fun _ => []) (fun _ => .err) sampleAct :=
  c6_cache_skip_and_corrupt_miss (fun _ => none) (.ok ⟨200, "x", ""⟩) (fun _ => sampleMeta)
    (fun _ => []) (fun _ => .err) sampleAct sampleCompleteAct (by decide)

/- ─────────────────────────── Theorems: C7, C10 ─────────────────────────── -/

/-- C7 counterexample: ingest.ts line 430 tests only the footnote's
truthiness, so a reply whose content cleans to empty but whose footnote is
non-empty assembles to "\n\n[Footnote] B" — while the claim's "equals just
the cleaned content otherwise" predicts "". -/
theorem c7_counterexample :
    parseSectionContentJson jpEmptyContent emptyContentJson = ("", "B") ∧
    assembleContent "" "B" = "\n\n[Footnote] B" ∧
    assembleContentSpec "" "B" = "" ∧
    assembleContent "" "B" ≠ assembleContentSpec "" "B" := by
  refine ⟨by decide, by decide, by decide, by decide⟩

/-- C7 amended: the assembled provision content is
`content + "\n\n[Footnote] " + footnote` exactly when the cleaned footnote
is non-empty (regardless of the content), and is exactly the cleaned content
when the footnote cleans to empty; when both clean non-empty the source
agrees with the spec's both-non-empty rule; and the claim's two concrete
examples hold. -/
theorem c7_amended (jsonParse : String → Option SectionPayload) (json : String)
    (d : SectionPayload) (hd : jsonParse json = some d) :
    (cleanText (d.footnote.getD "") ≠ "" →
      assembleContent (parseSectionContentJson jsonParse json).1
          (parseSectionContentJson jsonParse json).2 =
        cleanText (d.content.getD "") ++ "\n\n[Footnote] " ++ cleanText (d.footnote.getD "")) ∧
    (cleanText (d.footnote.getD "") = "" →
      assembleContent (parseSectionContentJson jsonParse json).1
          (parseSectionContentJson jsonParse json).2 = cleanText (d.content.getD "")) ∧
    ((cleanText (d.content.getD "") ≠ "" ∧ cleanText (d.footnote.getD "") ≠ "") →
      assembleContent (parseSectionContentJson jsonParse json).1
          (parseSectionContentJson jsonParse json).2 =
        assembleContentSpec (parseSectionContentJson jsonParse json).1
          (parseSectionContentJson jsonParse json).2) ∧
    parseSectionContentJson jpHello helloJson = ("Hello", "") ∧
    assembleContent "Hello" "" = "Hello" ∧
    parseSectionContentJson jpAB abJson = ("A", "B") ∧
    assembleContent "A" "B" = "A\n\n[Footnote] B" := by
  have hp : parseSectionContentJson jsonParse json =
      (cleanText (d.content.getD ""), cleanText (d.footnote.getD "")) := by
    simp [parseSectionContentJson, hd]
  refine ⟨?_, ?_, ?_, by decide, by decide, by decide, by decide⟩
  · intro hf
    rw [hp]
    simp [assembleContent, hf]
  · intro hf
    rw [hp]
    simp [assembleContent, hf]
  · rintro ⟨hc, hf⟩
    rw [hp]
    simp [assembleContent, assembleContentSpec, hc, hf]

/-- Witness for C7 amended, at the spec's second example payload. -/
theorem c7_amended_witness :
    assembleContent (parseSectionContentJson jpAB abJson).1
      (parseSectionContentJson jpAB abJson).2 =
      cleanText "A" ++ "\n\n[Footnote] " ++ cleanText "B" :=
  (c7_amended jpAB abJson ⟨some "A", some "B"⟩ (by decide)).1 (by decide)

/-- C10: a parsed `--limit` of 0 and a non-numeric `--limit` (NaN) are both
falsy, so the whole act index is processed — the slice applies only to a
truthy numeric limit. -/
theorem c10_falsy_limit_means_no_limit (acts : List ActIndexEntry) :
    parseIntJs "0" = .int 0 ∧
    parseIntJs "abc" = .nan ∧
    toProcess acts (some (parseIntJs "0")) = acts ∧
    toProcess acts (some (parseIntJs "abc")) = acts ∧
    toProcess acts none = acts := by
  have h0 : parseIntJs "0" = .int 0 := by decide
  have hn : parseIntJs "abc" = .nan := by decide
  refine ⟨h0, hn, ?_, ?_, rfl⟩
  · rw [h0]
    simp [toProcess]
  · rw [hn]
    rfl

/- ─────────────────────────────── Theorems: C8 ─────────────────────────────── -/

/-- C8 counterexample: `lastRequestTime` is recorded before attempt 0 only,
so after a call whose 429 retry already burned 2000 ms, the next call's
`rateLimit()` sees a large elapsed time and does not wait — its request
starts 0 ms after the previous call's final (retry) attempt. Requests go out
at 600, 2600 and 2600 ms: a consecutive pair less than 500 ms apart. -/
theorem c8_counterexample :
    allStarts (runCalls 0 600 cexCalls) = [600, 2600, 2600] ∧
    spacedBy 500 (allStarts (runCalls 0 600 cexCalls)) = false := by
  refine ⟨by decide, by decide⟩

/-- Helper: the post-`rateLimit()` clock is at least 500 ms past the
recorded `lastRequestTime`. -/
theorem rateLimitWait_spec (last now : Int) :
    last + 500 ≤ now + rateLimitWait last now := by
  simp only [rateLimitWait, MIN_DELAY_MS]
  split <;> omega

/-- Helper: unfolding a retrying step of the timed loop. -/
theorem runAttempts_succ_retry (t : Nat → FetchResult) (dur : Nat → Nat)
    (attempt : Nat) (now : Int) (k : Nat)
    (hr : isRetryable (t attempt).status = true ∧ 0 < k) :
    runAttempts t dur attempt now (k + 1) =
      (now :: (runAttempts t dur (attempt + 1)
          (now + (dur attempt : Int) + (backoffMs attempt : Int)) k).1,
        (runAttempts t dur (attempt + 1)
          (now + (dur attempt : Int) + (backoffMs attempt : Int)) k).2) := by
  simp [runAttempts, hr.1, hr.2]

/-- Helper: unfolding a final step of the timed loop. -/
theorem runAttempts_succ_stop (t : Nat → FetchResult) (dur : Nat → Nat)
    (attempt : Nat) (now : Int) (k : Nat)
    (hr : ¬ (isRetryable (t attempt).status = true ∧ 0 < k)) :
    runAttempts t dur attempt now (k + 1) = ([now], now + (dur attempt : Int)) := by
  simp [runAttempts, hr]

/-- Helper: every backoff is at least 2000 ms. -/
theorem backoffMs_ge (attempt : Nat) : 2000 ≤ backoffMs attempt := by
  have h1 : 1 ≤ 2 ^ attempt := Nat.one_le_two_pow
  unfold backoffMs
  rw [Nat.pow_succ]
  nlinarith

/-- Helper: within one timed call, the first request starts at the
post-rate-limit clock and consecutive request starts are at least 2000 ms
apart (one backoff, plus the fetch duration). -/
theorem runAttempts_starts (t : Nat → FetchResult) (dur : Nat → Nat) :
    ∀ (k attempt : Nat) (now : Int), 0 < k →
      (runAttempts t dur attempt now k).1.head? = some now ∧
      spacedBy 2000 (runAttempts t dur attempt now k).1 = true := by
  intro k
  induction k with
  | zero => intro attempt now h; exact absurd h (by omega)
  | succ k ih =>
    intro attempt now _
    by_cases hr : isRetryable (t attempt).status = true ∧ 0 < k
    · rw [runAttempts_succ_retry t dur attempt now k hr]
      obtain ⟨hhead, hspace⟩ :=
        ih (attempt + 1) (now + (dur attempt : Int) + (backoffMs attempt : Int)) hr.2
      refine ⟨rfl, ?_⟩
      cases hl : (runAttempts t dur (attempt + 1)
          (now + (dur attempt : Int) + (backoffMs attempt : Int)) k).1 with
      | nil => simp [spacedBy]
      | cons b rest =>
        rw [hl] at hhead hspace
        simp only [List.head?_cons, Option.some.injEq] at hhead
        simp only [spacedBy, Bool.and_eq_true, decide_eq_true_eq]
        refine ⟨?_, hspace⟩
        have hback : (2000 : Int) ≤ (backoffMs attempt : Int) := by
          exact_mod_cast backoffMs_ge attempt
        have hdur : (0 : Int) ≤ (dur attempt : Int) := Int.ofNat_nonneg _
        omega
    · rw [runAttempts_succ_stop t dur attempt now k hr]
      exact ⟨rfl, by simp [spacedBy]⟩

/-- Helper: one timed call starts its first request at least 500 ms after
the stored `lastRequestTime`, records that start, and keeps its own attempts
at least 2000 ms apart. -/
theorem runCall_spec (t : Nat → FetchResult) (dur : Nat → Nat) (last now : Int) :
    last + 500 ≤ (runCall t dur 3 last now).1 ∧
    (runCall t dur 3 last now).2.1.head? = some (runCall t dur 3 last now).1 ∧
    spacedBy 2000 (runCall t dur 3 last now).2.1 = true := by
  refine ⟨rateLimitWait_spec last now, ?_, ?_⟩
  · exact (runAttempts_starts t dur 4 0 (now + rateLimitWait last now) (by omega)).1
  · exact (runAttempts_starts t dur 4 0 (now + rateLimitWait last now) (by omega)).2

/-- Helper: across a whole run, every recorded first-attempt start is at
least 500 ms past the incoming `lastRequestTime`, heads the call's start
list, keeps within-call spacing of 2000 ms, and consecutive calls' first
attempts are at least 500 ms apart. -/
theorem runCalls_spec (calls : List CallInput) :
    ∀ (last now : Int),
      (∀ p ∈ runCalls last now calls, last + 500 ≤ p.1 ∧
        p.2.head? = some p.1 ∧ spacedBy 2000 p.2 = true) ∧
      spacedBy 500 ((runCalls last now calls).map Prod.fst) = true := by
  induction calls with
  | nil =>
    intro last now
    exact ⟨by simp [runCalls], by simp [runCalls, spacedBy]⟩
  | cons c rest ih =>
    intro last now
    have hc := runCall_spec c.t c.dur last now
    constructor
    · intro p hp
      simp only [runCalls, List.mem_cons] at hp
      rcases hp with rfl | hp
      · exact ⟨hc.1, hc.2.1, hc.2.2⟩
      · have h := (ih (runCall c.t c.dur 3 last now).1
          ((runCall c.t c.dur 3 last now).2.2 + (c.gapAfter : Int))).1 p hp
        have h1 := hc.1
        exact ⟨by omega, h.2.1, h.2.2⟩
    · simp only [runCalls, List.map_cons]
      cases hL : runCalls (runCall c.t c.dur 3 last now).1
          ((runCall c.t c.dur 3 last now).2.2 + (c.gapAfter : Int)) rest with
      | nil => simp [spacedBy]
      | cons q L =>
        simp only [List.map_cons, spacedBy, Bool.and_eq_true, decide_eq_true_eq]
        constructor
        · have hq := (ih (runCall c.t c.dur 3 last now).1
            ((runCall c.t c.dur 3 last now).2.2 + (c.gapAfter : Int))).1 q
            (by rw [hL]; exact List.mem_cons_self q L)
          exact hq.1
        · have h2 := (ih (runCall c.t c.dur 3 last now).1
            ((runCall c.t c.dur 3 last now).2.2 + (c.gapAfter : Int))).2
          rw [hL] at h2
          simpa using h2

/-- C8 amended: the 500 ms minimum spacing holds between the recorded
first attempts of consecutive calls (where `lastRequestTime` is taken); a
request following a retry attempt of the previous call may come sooner, but
consecutive attempts inside one call are at least 2000 ms apart, so the only
under-500 ms pairs are a retry attempt followed by the next call's first
attempt. -/
theorem c8_amended_spacing (last now : Int) (calls : List CallInput) :
    (∀ p ∈ runCalls last now calls,
      p.2.head? = some p.1 ∧ spacedBy 2000 p.2 = true) ∧
    spacedBy 500 ((runCalls last now calls).map Prod.fst) = true := by
  have h := runCalls_spec calls last now
  exact ⟨fun p hp => ⟨(h.1 p hp).2.1, (h.1 p hp).2.2⟩, h.2⟩

/-- Witness for C8 amended at the counterexample run. -/
theorem c8_amended_witness :
    ((600 : Int), [600, 2600]) ∈ runCalls 0 600 cexCalls ∧
    (([600, 2600] : List Int).head? = some 600 ∧
      spacedBy 2000 [600, 2600] = true) ∧
    spacedBy 500 ((runCalls 0 600 cexCalls).map Prod.fst) = true :=
  ⟨by decide, (c8_amended_spacing 0 600 cexCalls).1 (600, [600, 2600]) (by decide),
   (c8_amended_spacing 0 600 cexCalls).2⟩
